import Mathlib

/-!
# static_vector and unique_ptr

A shallow embedding of `static_vector.hpp` (a fixed-capacity vector whose
element count is stored in a `std::uint8_t`) and of `unique_ptr.hpp` (a
single-owner handle with a deleter), together with the properties proved
about them.

Conventions of the embedding

* `static_vector α Capacity` carries the two data members `m_data` and `m_size`.
  A slot of `m_data` is `none` while no object is constructed in it.
  `m_size` is a natural number below `2^8`; every update of it is taken
  modulo `256`, as the arithmetic of `std::uint8_t` does.
* `trace` is a ghost member: the calls of `std::construct_at` and
  `std::destroy_at` made by the members of the object, oldest first.
* What the members need to know about the element type `T` is given by the
  class `Element`: whether `T` is trivial (which selects the storage) and
  whether `T` is a pointer type (which decides whether `pop_back` can be
  instantiated, and what its `std::destroy_at` call destroys).
* A call returns an `Outcome`: `ok` with the new state, `halt` when an
  `assert` fails, an exception leaves the call, the behaviour is undefined, or
  the member cannot be instantiated for the element type, and `timeout` when
  a loop has not finished within the supplied number of iterations.
* Objects that can alias (`operator=`) live in a `World`, a map from
  addresses to objects.
-/

namespace SV

/-- Reasons for which a call stops without returning normally. -/
inductive Err where
  /-- The exception `std::out_of_range` thrown by `at`. -/
  | out_of_range
  /-- A failed `assert`. -/
  | assertion
  /-- A read of a slot in which no object is constructed. -/
  | uninitialized
  /-- The member cannot be instantiated for the element type: a program that
  calls it is ill-formed. -/
  | ill_formed
  /-- A construction outside the storage block: undefined behaviour. -/
  | out_of_block
  /-- The call `std::destroy_at` on a null pointer: undefined behaviour. -/
  | null_pointee
  deriving DecidableEq, Repr

/-- Result of a call. -/
inductive Outcome (σ : Type) where
  | ok (s : σ)
  | halt (e : Err)
  | timeout
  deriving DecidableEq, Repr

/-- Sequencing of two calls. -/
def Outcome.bind {σ τ : Type} : Outcome σ → (σ → Outcome τ) → Outcome τ
  | .ok s, f => f s
  | .halt e, _ => .halt e
  | .timeout, _ => .timeout

/-- Observation of a field of the returned state. -/
def Outcome.map {σ τ : Type} (f : σ → τ) : Outcome σ → Outcome τ
  | .ok s => .ok (f s)
  | .halt e => .halt e
  | .timeout => .timeout

/-- The loop `while (cond) body;` run for at most `fuel` iterations. -/
def while_loop {σ : Type} (cond : σ → Bool) (body : σ → Outcome σ) : Nat → σ → Outcome σ
  | 0, s => if cond s then .timeout else .ok s
  | fuel + 1, s => if cond s then (body s).bind (while_loop cond body fuel) else .ok s

/-- Calls of the placement primitives on the slots of one object. -/
inductive Event where
  /-- The call `std::construct_at(data() + i, ...)`. -/
  | construct (i : Nat)
  /-- The call `std::destroy_at` on the element with index `i`, that is on the
  address `data() + i`. -/
  | destroy (i : Nat)
  /-- The call `std::destroy_at(p)` on the object at the address `p` outside the
  storage of the container. -/
  | destroy_pointee (p : Nat)
  deriving DecidableEq, Repr

/-- What the members of `static_vector<T, Capacity>` depend on in the element
type `T`. `is_trivial` is the value of `std::is_trivially_default_constructible_v<T>
&& std::is_trivially_destructible_v<T>`, which selects the storage type. `pointee`
is `some addr` when `T` is a pointer type `U*`, `addr v` being the address held by
the element `v` (0 for the null pointer), and `none` when `T` is not a pointer. -/
class Element (α : Type) where
  is_trivial : Bool
  pointee : Option (α → Nat)

/-- The element type `int`: trivial, not a pointer. -/
instance : Element Nat := { is_trivial := true, pointee := none }

/-- A pointer element type `U*`: the address held, 0 for the null pointer. -/
structure Ptr where
  addr : Nat
  deriving DecidableEq, Repr

/-- The element type `U*`: trivial, a pointer; `T()` is the null pointer. -/
instance : Element Ptr := { is_trivial := true, pointee := some Ptr.addr }

instance : Inhabited Ptr := { default := { addr := 0 } }

/-- The pointer view of the element type `T`, `none` when `T` is not a pointer. -/
def pointee_of (α : Type) [Element α] : Option (α → Nat) := Element.pointee

/-- The class `static_vector<T, Capacity>`: the storage `m_data` (a slot is
`none` when it holds no constructed object), the count `m_size` of type
`std::uint8_t`, and the ghost `trace` of construct and destroy calls. -/
structure static_vector (α : Type) (Capacity : Nat) where
  m_data : Nat → Option α
  m_size : Nat
  m_size_lt : m_size < 256
  trace : List Event

namespace static_vector

variable {α : Type} {Capacity : Nat}

/-- The constructor `static_vector() : m_size(0)`. -/
def ctor_default : static_vector α Capacity :=
  { m_data := fun _ => none, m_size := 0, m_size_lt := by decide, trace := [] }

/-- The member `size()`: returns `m_size`. -/
def size (s : static_vector α Capacity) : Nat := s.m_size

/-- The member `empty()`: returns `size() == 0`. -/
def empty (s : static_vector α Capacity) : Bool := s.size == 0

/-- The member `max_size()`: the maximum of `std::uint8_t`. -/
def max_size (_s : static_vector α Capacity) : Nat := 255

/-- The member `capacity()`: returns `Capacity`. -/
def capacity (_s : static_vector α Capacity) : Nat := Capacity

/-- The expression `data()[index]`: the object constructed in the slot. -/
def read (s : static_vector α Capacity) (index : Nat) : Outcome α :=
  match s.m_data index with
  | some v => .ok v
  | none => .halt .uninitialized

/-- The member `at(index)`: throws `std::out_of_range` when `index >= size()`,
else returns `data()[index]`. The second component is the object after the call. -/
def at_ (s : static_vector α Capacity) (index : Nat) : Outcome α × static_vector α Capacity :=
  if index ≥ s.size then (.halt .out_of_range, s) else (s.read index, s)

/-- The member `operator[](index)`: `assert(index < size())`, then `data()[index]`. -/
def index (s : static_vector α Capacity) (i : Nat) : Outcome α :=
  if i < s.size then s.read i else .halt .assertion

/-- The member `front()`: `assert(!empty())`, then `data()[0]`. -/
def front (s : static_vector α Capacity) : Outcome α :=
  if !s.empty then s.read 0 else .halt .assertion

/-- The member `back()`: `assert(!empty())`, then `data()[size() - 1]`. -/
def back (s : static_vector α Capacity) : Outcome α :=
  if !s.empty then s.read (s.size - 1) else .halt .assertion

/-- Number of elements the storage block `m_data` has room for. For a trivial `T`
the block is `std::array<T, Capacity>`; otherwise it is
`aligned_storage<T, Capacity>`, whose capacity parameter is a `std::uint8_t`, so
that the block has room for `Capacity` reduced modulo 256. -/
def slots [Element α] (_s : static_vector α Capacity) : Nat :=
  if Element.is_trivial α then Capacity else Capacity % 256

/-- The member `emplace_back(args...)`: `assert(size() < capacity())`, construct
at `data() + size()`, then `m_size++` in `std::uint8_t`. The construction is
undefined when `data() + size()` is outside the storage block. -/
def emplace_back [Element α] (s : static_vector α Capacity) (v : α) :
    Outcome (static_vector α Capacity) :=
  if s.size < s.capacity then
    if s.size < s.slots then
      .ok { m_data := fun j => if j = s.size then some v else s.m_data j
            m_size := (s.m_size + 1) % 256
            m_size_lt := Nat.mod_lt _ (by decide)
            trace := s.trace ++ [Event.construct s.size] }
    else .halt .out_of_block
  else .halt .assertion

/-- The member `push_back(value)`: `assert(size() < capacity())`, then
`emplace_back(value)`. -/
def push_back [Element α] (s : static_vector α Capacity) (v : α) :
    Outcome (static_vector α Capacity) :=
  if s.size < s.capacity then s.emplace_back v else .halt .assertion

/-- The member `pop_back()`: `assert(!empty())`,
`std::destroy_at(data()[size() - 1])`, then `m_size--` in `std::uint8_t`.
The argument of `std::destroy_at` is the element, not its address. When `T` is
not a pointer the call does not compile and the member cannot be instantiated.
When `T` is a pointer `U*` the call destroys the object the element points to
(undefined for the null pointer); the element stays in its slot. -/
def pop_back [Element α] (s : static_vector α Capacity) : Outcome (static_vector α Capacity) :=
  match pointee_of α with
  | none => .halt .ill_formed
  | some addr =>
    if !s.empty then
      match s.m_data (s.size - 1) with
      | none => .halt .uninitialized
      | some v =>
        if addr v = 0 then .halt .null_pointee
        else
          .ok { m_data := s.m_data
                m_size := (s.m_size + 255) % 256
                m_size_lt := Nat.mod_lt _ (by decide)
                trace := s.trace ++ [Event.destroy_pointee (addr v)] }
    else .halt .assertion

/-- The member `clear()`: `while (!empty()) pop_back();`. Its body calls
`pop_back`, so it can be instantiated only when `pop_back` can. -/
def clear [Element α] (fuel : Nat) (s : static_vector α Capacity) :
    Outcome (static_vector α Capacity) :=
  match pointee_of α with
  | none => .halt .ill_formed
  | some _ => while_loop (fun t => !t.empty) pop_back fuel s

/-- The destructor: `clear()`. -/
def dtor [Element α] (fuel : Nat) (s : static_vector α Capacity) :
    Outcome (static_vector α Capacity) :=
  s.clear fuel

/-- The member `resize(count, value)`: `assert(count <= capacity())`,
`while (m_size > count) pop_back();`, `while (m_size < count) push_back(value);`.
Its body calls `pop_back`, so it can be instantiated only when `pop_back` can. -/
def resize_value [Element α] (fuel : Nat) (count : Nat) (value : α)
    (s : static_vector α Capacity) : Outcome (static_vector α Capacity) :=
  match pointee_of α with
  | none => .halt .ill_formed
  | some _ =>
    if count ≤ s.capacity then
      (while_loop (fun t => decide (t.m_size > count)) pop_back fuel s).bind
        (while_loop (fun t => decide (t.m_size < count)) (fun t => t.push_back value) fuel)
    else .halt .assertion

/-- The member `resize(count)`: as `resize(count, value)` with `push_back(T())`. -/
def resize [Inhabited α] [Element α] (fuel : Nat) (count : Nat) (s : static_vector α Capacity) :
    Outcome (static_vector α Capacity) :=
  match pointee_of α with
  | none => .halt .ill_formed
  | some _ =>
    if count ≤ s.capacity then
      (while_loop (fun t => decide (t.m_size > count)) pop_back fuel s).bind
        (while_loop (fun t => decide (t.m_size < count)) (fun t => t.push_back default) fuel)
    else .halt .assertion

/-- The constructor `static_vector(count, value) : m_size(0)`: `resize(count, value)`. -/
def ctor_fill [Element α] (fuel : Nat) (count : Nat) (value : α) :
    Outcome (static_vector α Capacity) :=
  resize_value fuel count value ctor_default

/-- The elements read at the indices `0 .. size() - 1`, in index order. -/
def live_seq (s : static_vector α Capacity) : List (Option α) :=
  (List.range s.size).map s.m_data

/-- The container holds exactly the live sequence `xs`: `size() = |xs|` and the
slot `i` holds a constructed object equal to `xs[i]`. -/
def Live (s : static_vector α Capacity) (xs : List α) : Prop :=
  s.live_seq = xs.map some

instance [DecidableEq α] (s : static_vector α Capacity) (xs : List α) : Decidable (Live s xs) :=
  inferInstanceAs (Decidable (s.live_seq = xs.map some))

end static_vector

/-! ## Calls of `push_back` and `pop_back` in sequence -/

/-- One call of a stack operation. -/
inductive Op (α : Type) where
  | push_back (v : α)
  | pop_back
  deriving DecidableEq, Repr

open static_vector

variable {α : Type} {Capacity : Nat}

/-- The call denoted by `op` on the object `s`. -/
def Op.apply [Element α] (s : static_vector α Capacity) :
    Op α → Outcome (static_vector α Capacity)
  | .push_back v => s.push_back v
  | .pop_back => s.pop_back

/-- The calls of `ops` made one after the other; the first failing call stops the run. -/
def run [Element α] :
    List (Op α) → static_vector α Capacity → Outcome (static_vector α Capacity)
  | [], s => .ok s
  | op :: rest, s => (op.apply s).bind (run rest)

/-- The same calls on a plain list used as a stack. -/
def ref_run : List (Op α) → List α → List α
  | [], xs => xs
  | .push_back v :: rest, xs => ref_run rest (xs ++ [v])
  | .pop_back :: rest, xs => ref_run rest xs.dropLast

/-- No `pop_back` at reference count `0` and no `push_back` at reference count
`bound`, the reference count starting at `count`. -/
def valid_ops (bound : Nat) : Nat → List (Op α) → Bool
  | _, [] => true
  | count, .push_back _ :: rest => decide (count < bound) && valid_ops bound (count + 1) rest
  | count, .pop_back :: rest => decide (0 < count) && valid_ops bound (count - 1) rest

/-- Number of `push_back` calls in `ops`. -/
def pushes : List (Op α) → Nat
  | [] => 0
  | .push_back _ :: rest => pushes rest + 1
  | .pop_back :: rest => pushes rest

/-- Number of `pop_back` calls in `ops`. -/
def pops : List (Op α) → Nat
  | [] => 0
  | .push_back _ :: rest => pops rest
  | .pop_back :: rest => pops rest + 1

/-- The contract of a run of stack operations from the empty container: the run
returns, `size()` is `#pushes - #pops`, and the element read at each index below
`size()` is the element of the reference stack. -/
def push_pop_contract [Element α] (Capacity : Nat) (ops : List (Op α)) : Prop :=
  ∃ s : static_vector α Capacity, run ops ctor_default = .ok s ∧
    s.size = pushes ops - pops ops ∧
    (ref_run ops []).length = s.size ∧
    ∀ i (h : i < (ref_run ops []).length), s.at_ i = (.ok ((ref_run ops [])[i]), s)

/-! ## Objects at addresses: copy construction and copy assignment -/

/-- The objects of a program, by address. -/
abbrev World (α : Type) (Capacity : Nat) := Nat → static_vector α Capacity

/-- The world in which the object at address `p` is `s`. -/
def World.set (w : World α Capacity) (p : Nat) (s : static_vector α Capacity) : World α Capacity :=
  fun q => if q = p then s else w q

/-- One iteration of `for (i = 0; i < other.size(); i++) push_back(other[i]);`
on the loop state `(i, w)`, the objects being at the addresses `this` and `other`. -/
def copy_body [Element α] (this other : Nat) (st : Nat × World α Capacity) :
    Outcome (Nat × World α Capacity) :=
  ((st.2 other).index st.1).bind fun v =>
    ((st.2 this).push_back v).bind fun t =>
      .ok (st.1 + 1, st.2.set this t)

/-- The loop `for (i = 0; i < other.size(); i++) push_back(other[i]);`. -/
def copy_loop [Element α] (this other : Nat) (fuel : Nat) (w : World α Capacity) :
    Outcome (World α Capacity) :=
  (while_loop (fun st => decide (st.1 < (st.2 other).size)) (copy_body this other) fuel (0, w)).map
    Prod.snd

/-- The copy constructor `static_vector(const static_vector& other) : m_size(0)`,
constructing the object at address `this`. -/
def ctor_copy [Element α] (this other : Nat) (fuel : Nat) (w : World α Capacity) :
    Outcome (World α Capacity) :=
  copy_loop this other fuel (w.set this ctor_default)

/-- The copy assignment `operator=(const static_vector& other)`:
`if (this != std::addressof(other)) { clear(); for (...) push_back(other[i]); }`.
Its body calls `clear`, so it can be instantiated only when `pop_back` can. -/
def copy_assign [Element α] (this other : Nat) (fuel : Nat) (w : World α Capacity) :
    Outcome (World α Capacity) :=
  match pointee_of α with
  | none => .halt .ill_formed
  | some _ =>
    if this ≠ other then
      ((w this).clear fuel).bind fun t => copy_loop this other fuel (w.set this t)
    else .ok w

/-! ## States and predicates used in the statements -/

/-- State after a successful `emplace_back`. -/
def pushed (s : static_vector α Capacity) (v : α) : static_vector α Capacity :=
  { m_data := fun j => if j = s.size then some v else s.m_data j
    m_size := (s.m_size + 1) % 256
    m_size_lt := Nat.mod_lt _ (by decide)
    trace := s.trace ++ [Event.construct s.size] }

/-- A world for concrete checks: the object at address 1 holds `[1, 2]`, the object
at address 2 holds `[5, 6, 7]`, every other object is empty; capacity 4. -/
def sample_world : World Nat 4 := fun p =>
  if p = 1 then pushed (pushed ctor_default 1) 2
  else if p = 2 then pushed (pushed (pushed ctor_default 5) 6) 7
  else ctor_default

/-- A world of pointer elements for concrete checks: the object at address 1 holds
the pointers `[11, 12]`, the object at address 2 holds the null pointer, the object
at address 3 holds `[21, 22, 23]`, every other object is empty; capacity 4. -/
def pointer_world : World Ptr 4 := fun p =>
  if p = 1 then pushed (pushed ctor_default { addr := 11 }) { addr := 12 }
  else if p = 2 then pushed ctor_default { addr := 0 }
  else if p = 3 then
    pushed (pushed (pushed ctor_default { addr := 21 }) { addr := 22 }) { addr := 23 }
  else ctor_default

/-- A container of capacity 256 holding 255 elements, all equal to 7. -/
def full_255 : static_vector Nat 256 :=
  { m_data := fun j => if j < 255 then some 7 else none
    m_size := 255
    m_size_lt := by decide
    trace := [] }

/-! ## Iterators

An iterator of `static_vector` is a `const T*` into the storage; it is modelled by
its offset from `data()`, so that `data()` is offset 0, equality of pointers is
equality of offsets and `*it` reads the slot `it`. -/

/-- The member `begin()`: returns `data()`. -/
def static_vector.begin (_s : static_vector α Capacity) : Nat := 0

/-- The member `cbegin()`: returns `data()`. -/
def static_vector.cbegin (_s : static_vector α Capacity) : Nat := 0

/-- The member `end()`: returns `data() + size()`. -/
def static_vector.end_ (s : static_vector α Capacity) : Nat := 0 + s.size

/-- The member `cend()`: returns `data() + size()`. -/
def static_vector.cend (s : static_vector α Capacity) : Nat := 0 + s.size

/-- The adaptor `std::reverse_iterator` of the standard library over a pointer: it
stores the pointer `current`; `*r` is `*(current - 1)`, `++r` is `--current`, and
two reverse iterators are equal when their `current` are. -/
structure reverse_iterator where
  current : Nat
  deriving DecidableEq, Repr

/-- The function `std::make_reverse_iterator(it)`. -/
def make_reverse_iterator (it : Nat) : reverse_iterator := { current := it }

/-- The member `rbegin()`: returns `std::make_reverse_iterator(end())`. -/
def static_vector.rbegin (s : static_vector α Capacity) : reverse_iterator :=
  make_reverse_iterator s.end_

/-- The member `crbegin()`: returns `std::make_reverse_iterator(cend())`. -/
def static_vector.crbegin (s : static_vector α Capacity) : reverse_iterator :=
  make_reverse_iterator s.cend

/-- The member `rend()`: returns `std::make_reverse_iterator(begin())`. -/
def static_vector.rend (s : static_vector α Capacity) : reverse_iterator :=
  make_reverse_iterator s.begin

/-- The member `crend()`: returns `std::make_reverse_iterator(cbegin())`. -/
def static_vector.crend (s : static_vector α Capacity) : reverse_iterator :=
  make_reverse_iterator s.cbegin

/-- The walk `for (it = first; it != last; ++it) visit(*it);` over pointers into
the storage of `s`; the result is the list of the elements visited, in order. -/
def walk (s : static_vector α Capacity) (first last : Nat) (fuel : Nat) : Outcome (List α) :=
  (while_loop (fun st : Nat × List α => decide (st.1 ≠ last))
    (fun st => (s.read st.1).bind fun v => .ok (st.1 + 1, st.2 ++ [v]))
    fuel (first, [])).map Prod.snd

/-- The walk `for (r = first; r != last; ++r) visit(*r);` over reverse iterators
into the storage of `s`. -/
def rwalk (s : static_vector α Capacity) (first last : reverse_iterator) (fuel : Nat) :
    Outcome (List α) :=
  (while_loop (fun st : reverse_iterator × List α => decide (st.1 ≠ last))
    (fun st => (s.read (st.1.current - 1)).bind fun v =>
      .ok (make_reverse_iterator (st.1.current - 1), st.2 ++ [v]))
    fuel (first, [])).map Prod.snd

/-! ## unique_ptr

A raw pointer is a natural number, `nullptr` being 0. A call of a deleter has no
effect on the handles; the calls made are recorded, oldest first, in `calls`. -/

/-- The class `unique_ptr<T, Deleter>`: the members `m_ptr` and `m_deleter`. -/
structure unique_ptr (δ : Type) where
  m_ptr : Nat
  m_deleter : δ

/-- The constructor `unique_ptr(std::nullptr_t) : m_ptr(nullptr)`, which
`unique_ptr()` delegates to. -/
def unique_ptr.ctor_null {δ : Type} [Inhabited δ] : unique_ptr δ :=
  { m_ptr := 0, m_deleter := default }

/-- The constructor `unique_ptr(pointer ptr) : m_ptr(ptr), m_deleter()`. -/
def unique_ptr.ctor_ptr {δ : Type} [Inhabited δ] (ptr : Nat) : unique_ptr δ :=
  { m_ptr := ptr, m_deleter := default }

/-- The member `get()`: returns `m_ptr`. -/
def unique_ptr.get {δ : Type} (u : unique_ptr δ) : Nat := u.m_ptr

/-- The member `get_deleter()`: returns `m_deleter`. -/
def unique_ptr.get_deleter {δ : Type} (u : unique_ptr δ) : δ := u.m_deleter

/-- The member `operator bool()`: returns `m_ptr != nullptr`. -/
def unique_ptr.to_bool {δ : Type} (u : unique_ptr δ) : Bool := u.m_ptr != 0

/-- The member `release()`: `temp = get(); m_ptr = nullptr; return temp;`. The
result is the returned pointer and the handle after the call. -/
def unique_ptr.release {δ : Type} (u : unique_ptr δ) : Nat × unique_ptr δ :=
  (u.get, { u with m_ptr := 0 })

/-- The member `reset(ptr)`: `if (m_ptr) get_deleter()(get()); m_ptr = ptr;`. The
result is the handle after the call and the deleter calls made so far. -/
def unique_ptr.reset {δ : Type} (u : unique_ptr δ) (ptr : Nat) (calls : List (δ × Nat)) :
    unique_ptr δ × List (δ × Nat) :=
  if u.m_ptr ≠ 0 then ({ u with m_ptr := ptr }, calls ++ [(u.get_deleter, u.get)])
  else ({ u with m_ptr := ptr }, calls)

/-- The destructor: `reset()`, the argument defaulting to `pointer()`, the null pointer. -/
def unique_ptr.dtor {δ : Type} (u : unique_ptr δ) (calls : List (δ × Nat)) :
    unique_ptr δ × List (δ × Nat) :=
  u.reset 0 calls

/-- The handles of a program, by address, and the deleter calls made so far. -/
structure Handles (δ : Type) where
  obj : Nat → unique_ptr δ
  calls : List (δ × Nat)

/-- The handles in which the handle at address `p` is `u`. -/
def Handles.set {δ : Type} (h : Handles δ) (p : Nat) (u : unique_ptr δ) : Handles δ :=
  { h with obj := fun q => if q = p then u else h.obj q }

/-- The move constructor `unique_ptr(unique_ptr&& ptr) : m_ptr(ptr.release()),
m_deleter(std::move(ptr.get_deleter()))`, constructing the handle at `this`. -/
def unique_ptr.ctor_move {δ : Type} (this ptr : Nat) (h : Handles δ) : Handles δ :=
  let h1 := h.set ptr (h.obj ptr).release.2
  h1.set this { m_ptr := (h.obj ptr).release.1, m_deleter := (h1.obj ptr).get_deleter }

/-- The move assignment `operator=(unique_ptr&& rhs)`:
`if (this != &rhs) { reset(rhs.release()); m_deleter = std::move(rhs.get_deleter());
rhs.m_ptr = nullptr; }`. -/
def unique_ptr.move_assign {δ : Type} (this rhs : Nat) (h : Handles δ) : Handles δ :=
  if this ≠ rhs then
    let temp := (h.obj rhs).release.1
    let h1 := h.set rhs (h.obj rhs).release.2
    let r := (h1.obj this).reset temp h1.calls
    let h2 : Handles δ := { obj := (h1.set this r.1).obj, calls := r.2 }
    let h3 := h2.set this { h2.obj this with m_deleter := (h2.obj rhs).get_deleter }
    h3.set rhs { h3.obj rhs with m_ptr := 0 }
  else h

/-- The destructor of the handle at address `p`. -/
def unique_ptr.destroy {δ : Type} (p : Nat) (h : Handles δ) : Handles δ :=
  { obj := (h.set p ((h.obj p).dtor h.calls).1).obj, calls := ((h.obj p).dtor h.calls).2 }

/-- Handles for concrete checks: the handles at the addresses 1 and 2 both hold the
pointer 10, every other handle is null; the deleter of the handle at address `p` is
the number `p`. -/
def shared_handles : Handles Nat :=
  { obj := fun p => { m_ptr := if p = 1 then 10 else if p = 2 then 10 else 0, m_deleter := p }
    calls := [] }

/-- Handles for concrete checks: the handle at address 1 holds the pointer 10, the
handle at address 2 holds the pointer 20, every other handle is null; the deleter
of the handle at address `p` is the number `p`. -/
def sample_handles : Handles Nat :=
  { obj := fun p => { m_ptr := if p = 1 then 10 else if p = 2 then 20 else 0, m_deleter := p }
    calls := [] }


/-! ## Basic facts about the embedding -/

theorem slots_of_le [Element α] (s : static_vector α Capacity) (h : Capacity ≤ 255) :
    s.slots = Capacity := by
  unfold static_vector.slots
  split
  · rfl
  · omega

theorem slots_of_trivial [Element α] (s : static_vector α Capacity)
    (h : Element.is_trivial α = true) : s.slots = Capacity := by
  unfold static_vector.slots
  rw [if_pos h]

theorem emplace_back_eq [Element α] (s : static_vector α Capacity) (v : α) :
    s.emplace_back v = if s.m_size < Capacity then
      (if s.m_size < s.slots then .ok (pushed s v) else .halt .out_of_block)
      else .halt .assertion := rfl

theorem push_back_eq [Element α] (s : static_vector α Capacity) (v : α) :
    s.push_back v = if s.m_size < Capacity then
      (if s.m_size < s.slots then .ok (pushed s v) else .halt .out_of_block)
      else .halt .assertion := by
  unfold push_back
  rw [emplace_back_eq]
  by_cases h : s.m_size < Capacity <;> simp [static_vector.size, static_vector.capacity, h]

/-- Within the capacity, and with a storage block of `Capacity` slots (a capacity
of at most 255, or a trivial element type), `push_back` returns. -/
theorem push_back_ok [Element α] (s : static_vector α Capacity) (v : α)
    (h : s.m_size < Capacity) (hb : Capacity ≤ 255 ∨ Element.is_trivial α = true) :
    s.push_back v = .ok (pushed s v) := by
  have hs : s.slots = Capacity := by
    cases hb with
    | inl h1 => exact slots_of_le s h1
    | inr h2 => exact slots_of_trivial s h2
  rw [push_back_eq, if_pos h, hs, if_pos h]

theorem pushed_m_size (s : static_vector α Capacity) (h : s.m_size < 255) :
    (pushed s v).m_size = s.m_size + 1 := by
  show (s.m_size + 1) % 256 = s.m_size + 1
  omega

theorem live_iff (s : static_vector α Capacity) (xs : List α) :
    Live s xs ↔ s.m_size = xs.length ∧ ∀ i, i < xs.length → s.m_data i = xs[i]? := by
  unfold Live live_seq size
  constructor
  · intro h
    have hl : s.m_size = xs.length := by
      have := congrArg List.length h
      simpa using this
    refine ⟨hl, fun i hi => ?_⟩
    have := congrArg (fun l => l[i]?) h
    simp only [List.getElem?_map] at this
    rw [List.getElem?_range (by omega)] at this
    simp only [Option.map_some'] at this
    rw [List.getElem?_eq_getElem hi] at this ⊢
    simpa using this
  · rintro ⟨hl, h⟩
    apply List.ext_getElem?
    intro i
    simp only [List.getElem?_map]
    by_cases hi : i < xs.length
    · rw [List.getElem?_range (by omega), List.getElem?_eq_getElem hi]
      simp only [Option.map_some']
      rw [h i hi, List.getElem?_eq_getElem hi]
    · rw [List.getElem?_eq_none (by simpa [hl] using hi), List.getElem?_eq_none (by simpa using hi)]
      rfl

theorem static_vector.Live.size_eq {s : static_vector α Capacity} {xs : List α} (h : Live s xs) :
    s.m_size = xs.length := ((live_iff s xs).1 h).1

theorem static_vector.Live.at_eq {s : static_vector α Capacity} {xs : List α} (h : Live s xs)
    (i : Nat) (hi : i < xs.length) : s.at_ i = (.ok xs[i], s) := by
  obtain ⟨hl, hd⟩ := (live_iff s xs).1 h
  have : ¬ i ≥ s.m_size := by omega
  simp [static_vector.at_, static_vector.size, this, static_vector.read, hd i hi, List.getElem?_eq_getElem hi]

theorem static_vector.Live.pushed {s : static_vector α Capacity} {xs : List α} (h : Live s xs)
    (hlt : xs.length < 255) (v : α) : Live (pushed s v) (xs ++ [v]) := by
  obtain ⟨hl, hd⟩ := (live_iff s xs).1 h
  refine (live_iff _ _).2 ⟨?_, fun i hi => ?_⟩
  · rw [pushed_m_size s (by omega)]; simp [hl]
  · show (if i = s.size then some v else s.m_data i) = _
    simp only [List.length_append, List.length_singleton] at hi
    by_cases hi2 : i = s.m_size
    · simp [size, hi2, hl]
    · have hi3 : i < xs.length := by omega
      simp only [size, hi2, if_false]
      rw [hd i hi3, List.getElem?_append_left hi3]

theorem live_ctor_default : Live (ctor_default : static_vector α Capacity) [] := by
  simp [Live, live_seq, size, ctor_default]

/-! ## Runs of `push_back` -/

theorem run_push_live [Element α] (hb : Capacity ≤ 255 ∨ Element.is_trivial α = true)
    (ops : List (Op α)) :
    ∀ (s : static_vector α Capacity) (xs : List α), Live s xs → pops ops = 0 →
      valid_ops (min Capacity 255) xs.length ops = true →
      ∃ t, run ops s = .ok t ∧ Live t (ref_run ops xs) := by
  induction ops with
  | nil => intro s xs h _ _; exact ⟨s, rfl, h⟩
  | cons op rest ih =>
    intro s xs h hp hv
    cases op with
    | push_back v =>
      simp only [valid_ops, Bool.and_eq_true, decide_eq_true_eq] at hv
      obtain ⟨hlt, hrest⟩ := hv
      have hsz := h.size_eq
      have hc : s.m_size < Capacity := by omega
      have hl := h.pushed (by omega) v
      have hrest2 : valid_ops (min Capacity 255) (xs ++ [v]).length rest = true := by
        simpa using hrest
      obtain ⟨t, ht, hlt2⟩ := ih (pushed s v) (xs ++ [v]) hl (by simpa [pops] using hp) hrest2
      refine ⟨t, ?_, hlt2⟩
      simp only [run, Op.apply, push_back_ok s v hc hb, Outcome.bind]
      exact ht
    | pop_back =>
      simp [pops] at hp

theorem ref_run_length (bound : Nat) (ops : List (Op α)) :
    ∀ xs : List α, valid_ops bound xs.length ops = true →
      pops ops ≤ xs.length + pushes ops ∧
      (ref_run ops xs).length = xs.length + pushes ops - pops ops := by
  induction ops with
  | nil => intro xs _; simp [pops, pushes, ref_run]
  | cons op rest ih =>
    intro xs hv
    cases op with
    | push_back v =>
      simp only [valid_ops, Bool.and_eq_true, decide_eq_true_eq] at hv
      have := ih (xs ++ [v]) (by simpa using hv.2)
      simp only [List.length_append, List.length_singleton] at this
      simp only [pops, pushes, ref_run]
      omega
    | pop_back =>
      simp only [valid_ops, Bool.and_eq_true, decide_eq_true_eq] at hv
      have := ih xs.dropLast (by simpa using hv.2)
      simp only [List.length_dropLast] at this
      simp only [pops, pushes, ref_run]
      omega

theorem run_replicate_push [Element α] (v : α) (hC : 256 ≤ Capacity)
    (ht : Element.is_trivial α = true) (n : Nat) :
    ∀ s : static_vector α Capacity, ∃ t, run (List.replicate n (Op.push_back v)) s = .ok t ∧
      t.m_size = (s.m_size + n) % 256 := by
  induction n with
  | zero =>
    intro s
    exact ⟨s, rfl, by have := s.m_size_lt; simp; omega⟩
  | succ n ih =>
    intro s
    have hc : s.m_size < Capacity := by have := s.m_size_lt; omega
    obtain ⟨t, ht2, hm⟩ := ih (pushed s v)
    refine ⟨t, ?_, ?_⟩
    · simp only [List.replicate_succ, run, Op.apply, push_back_ok s v hc (Or.inr ht),
        Outcome.bind]
      exact ht2
    · rw [hm]
      show ((s.m_size + 1) % 256 + n) % 256 = _
      omega

theorem valid_ops_replicate_push (v : α) (bound n : Nat) :
    ∀ count, count + n ≤ bound → valid_ops bound count (List.replicate n (Op.push_back v)) = true := by
  induction n with
  | zero => intro count _; rfl
  | succ n ih =>
    intro count h
    simp only [List.replicate_succ, valid_ops, Bool.and_eq_true, decide_eq_true_eq]
    exact ⟨by omega, ih (count + 1) (by omega)⟩

theorem pushes_replicate_push (v : α) (n : Nat) :
    pushes (List.replicate n (Op.push_back v)) = n ∧ pops (List.replicate n (Op.push_back v)) = 0 := by
  induction n with
  | zero => exact ⟨rfl, rfl⟩
  | succ n ih => simp [List.replicate_succ, pushes, pops, ih.1, ih.2]

/-- A list of `push_back` calls contains no `pop_back`. -/
theorem pops_map_push (vs : List α) : pops (vs.map Op.push_back) = 0 := by
  induction vs with
  | nil => rfl
  | cons v vs ih => simpa [pops] using ih

/-- C1, as amended: for every capacity `N <= 255` and every run of `push_back`
calls from the empty container in which no `push_back` happens at reference count
`N`, the run returns, `size()` is the number of pushes, and the element read at
each index below `size()` is the element pushed at that position. Runs that
contain a `pop_back` are left out. -/
theorem push_pop_contract_of_valid [Element α] (hN : Capacity ≤ 255) (ops : List (Op α))
    (hpush : pops ops = 0) (h : valid_ops Capacity 0 ops = true) :
    push_pop_contract Capacity ops := by
  have hmin : min Capacity 255 = Capacity := Nat.min_eq_left hN
  have h2 : valid_ops (min Capacity 255) ([] : List α).length ops = true := by
    rw [hmin]; exact h
  obtain ⟨t, ht, hl⟩ := run_push_live (Or.inl hN) ops
    (ctor_default : static_vector α Capacity) [] live_ctor_default hpush h2
  have hlen := (ref_run_length Capacity ops ([] : List α) h).2
  have hsz := hl.size_eq
  simp only [List.length_nil, Nat.zero_add] at hlen
  exact ⟨t, ht, by rw [static_vector.size, hsz, hlen], by rw [static_vector.size, hsz],
    fun i hi => hl.at_eq i hi⟩

/-- Witness of C1 as amended: capacity 4, calls push 1, push 2, push 3. -/
theorem push_pop_contract_of_valid_witness :
    push_pop_contract 4 [Op.push_back (1 : Nat), Op.push_back 2, Op.push_back 3] :=
  push_pop_contract_of_valid (by decide) _ (by decide) (by decide)

/-- C1 fails as stated: with capacity 256, the run of 256 `push_back` calls from
the empty container never pushes at reference count 256, yet its contract does
not hold (the 8-bit count has wrapped to 0, so `size()` is 0 and not 256). -/
theorem push_pop_contract_fails_at_256 :
    valid_ops 256 0 (List.replicate 256 (Op.push_back (7 : Nat))) = true ∧
    (∃ s : static_vector Nat 256,
      run (List.replicate 256 (Op.push_back (7 : Nat))) ctor_default = .ok s ∧ s.size = 0) ∧
    ¬ push_pop_contract 256 (List.replicate 256 (Op.push_back (7 : Nat))) := by
  obtain ⟨t, ht, hm⟩ := run_replicate_push (7 : Nat) (le_refl 256) rfl 256
    (ctor_default : static_vector Nat 256)
  have hm0 : t.m_size = 0 := by rw [hm]; rfl
  refine ⟨valid_ops_replicate_push _ _ _ _ (by omega), ⟨t, ht, hm0⟩, ?_⟩
  rintro ⟨s, hs, hsize, -⟩
  rw [ht] at hs
  cases hs
  rw [(pushes_replicate_push (7 : Nat) 256).1, (pushes_replicate_push (7 : Nat) 256).2,
    static_vector.size, hm0] at hsize
  omega

/-! ## Checked access -/

/-- C2: `at(i)` with `i >= size()` reports `std::out_of_range` and leaves the
container unchanged; for a container with live sequence `xs`, `at(i)` with
`i < |xs|` returns the element `xs[i]` without error, the container unchanged. -/
theorem at_checked (s : static_vector α Capacity) :
    (∀ i, i ≥ s.size → s.at_ i = (.halt .out_of_range, s)) ∧
    (∀ xs, Live s xs → s.size = xs.length ∧
      ∀ i (hi : i < xs.length), s.at_ i = (.ok xs[i], s)) := by
  refine ⟨fun i hi => by simp [static_vector.at_, hi], fun xs h => ⟨h.size_eq, fun i hi => h.at_eq i hi⟩⟩

/-- Witness of C2: `at(5)` and `at(1)` on the object at address 1 of the sample world. -/
theorem at_checked_witness :
    (sample_world 1).at_ 5 = (.halt .out_of_range, sample_world 1) ∧
    (sample_world 1).at_ 1 = (.ok 2, sample_world 1) :=
  ⟨(at_checked (sample_world 1)).1 5 (by decide),
    ((at_checked (sample_world 1)).2 [1, 2] (by decide)).2 1 (by decide)⟩

/-! ## The loops of `clear` and `resize` -/

theorem while_loop_done {σ : Type} (cond : σ → Bool) (body : σ → Outcome σ) (fuel : Nat) (s : σ)
    (h : cond s = false) : while_loop cond body fuel s = .ok s := by
  cases fuel <;> simp [while_loop, h]

theorem while_loop_step {σ : Type} (cond : σ → Bool) (body : σ → Outcome σ) (fuel : Nat) (s : σ)
    (h : cond s = true) :
    while_loop cond body (fuel + 1) s = (body s).bind (while_loop cond body fuel) := by
  simp [while_loop, h]

theorem while_loop_exit {σ : Type} (cond : σ → Bool) (body : σ → Outcome σ) (fuel : Nat) :
    ∀ s t, while_loop cond body fuel s = .ok t → cond t = false := by
  induction fuel with
  | zero =>
    intro s t h
    by_cases hc : cond s = true
    · simp [while_loop, hc] at h
    · simp only [while_loop, hc] at h
      simp only [Bool.false_eq_true, if_false, Outcome.ok.injEq] at h
      subst h; simpa using hc
  | succ fuel ih =>
    intro s t h
    by_cases hc : cond s = true
    · rw [while_loop_step _ _ _ _ hc] at h
      cases hb : body s with
      | ok u => rw [hb] at h; exact ih u t h
      | halt e => rw [hb] at h; cases h
      | timeout => rw [hb] at h; cases h
    · simp only [while_loop, hc] at h
      simp only [Bool.false_eq_true, if_false, Outcome.ok.injEq] at h
      subst h; simpa using hc

theorem while_loop_invariant {σ : Type} (cond : σ → Bool) (body : σ → Outcome σ) (P : σ → Prop)
    (hbody : ∀ s t, P s → cond s = true → body s = .ok t → P t) (fuel : Nat) :
    ∀ s t, P s → while_loop cond body fuel s = .ok t → P t := by
  induction fuel with
  | zero =>
    intro s t hP h
    by_cases hc : cond s = true
    · simp [while_loop, hc] at h
    · simp only [while_loop, hc] at h
      simp only [Bool.false_eq_true, if_false, Outcome.ok.injEq] at h
      subst h; exact hP
  | succ fuel ih =>
    intro s t hP h
    by_cases hc : cond s = true
    · rw [while_loop_step _ _ _ _ hc] at h
      cases hb : body s with
      | ok u => rw [hb] at h; exact ih u t (hbody s u hP hc hb) h
      | halt e => rw [hb] at h; cases h
      | timeout => rw [hb] at h; cases h
    · simp only [while_loop, hc] at h
      simp only [Bool.false_eq_true, if_false, Outcome.ok.injEq] at h
      subst h; exact hP

/-- A loop whose body never times out, and lowers the measure `μ` whenever it
returns, exits or halts within `μ s` iterations. -/
theorem while_loop_terminates {σ : Type} (cond : σ → Bool) (body : σ → Outcome σ) (μ : σ → Nat)
    (hpos : ∀ s, cond s = true → 0 < μ s)
    (hstep : ∀ s t, cond s = true → body s = .ok t → μ t < μ s)
    (hnt : ∀ s, body s ≠ .timeout) (fuel : Nat) :
    ∀ s, μ s ≤ fuel → while_loop cond body fuel s ≠ .timeout := by
  induction fuel with
  | zero =>
    intro s hs
    by_cases hc : cond s = true
    · have := hpos s hc
      omega
    · rw [while_loop_done _ _ _ _ (by simpa using hc)]
      exact fun h => by cases h
  | succ fuel ih =>
    intro s hs
    by_cases hc : cond s = true
    · rw [while_loop_step _ _ _ _ hc]
      cases hb : body s with
      | ok t =>
        have := hstep s t hc hb
        exact ih t (by omega)
      | halt e => exact fun h => by cases h
      | timeout => exact absurd hb (hnt s)
    · rw [while_loop_done _ _ _ _ (by simpa using hc)]
      exact fun h => by cases h

/-- The loop `while (m_size < count) push_back(value);` with `count` within the
capacity and the capacity within the range of the 8-bit count: it returns after
`count - m_size` iterations, having constructed the elements `m_size, ..., count - 1`. -/
theorem push_loop_spec [Element α] (count : Nat) (value : α) (hc : count ≤ Capacity)
    (hN : Capacity ≤ 255) (d : Nat) :
    ∀ (fuel : Nat) (s : static_vector α Capacity), s.m_size + d = count → d ≤ fuel →
      ∃ t, while_loop (fun t => decide (t.m_size < count)) (fun t => t.push_back value) fuel s
          = .ok t ∧
        t.m_size = count ∧
        (∀ j, t.m_data j = if s.m_size ≤ j ∧ j < count then some value else s.m_data j) ∧
        t.trace = s.trace ++ ((List.range' s.m_size d).map Event.construct) := by
  induction d with
  | zero =>
    intro fuel s hs _
    refine ⟨s, while_loop_done _ _ _ _ (by simp; omega), by simpa using hs, fun j => ?_, by simp⟩
    have : ¬ (s.m_size ≤ j ∧ j < count) := by omega
    simp [this]
  | succ d ih =>
    intro fuel s hs hf
    obtain ⟨fuel, rfl⟩ : ∃ f, fuel = f + 1 := ⟨fuel - 1, by omega⟩
    have hlt : s.m_size < Capacity := by omega
    have hm : (pushed s value).m_size = s.m_size + 1 := pushed_m_size s (by omega)
    obtain ⟨t, ht, htm, htd, htt⟩ := ih fuel (pushed s value) (by omega) (by omega)
    refine ⟨t, ?_, htm, fun j => ?_, ?_⟩
    · rw [while_loop_step _ _ _ _ (by simp; omega), push_back_ok s value hlt (Or.inl hN)]
      simp only [Outcome.bind]
      exact ht
    · rw [htd j, hm]
      show (if s.m_size + 1 ≤ j ∧ j < count then some value
        else (if j = s.size then some value else s.m_data j)) = _
      simp only [static_vector.size]
      by_cases h1 : s.m_size + 1 ≤ j ∧ j < count
      · have h2 : s.m_size ≤ j ∧ j < count := by omega
        simp [h1, h2]
      · by_cases h3 : j = s.m_size
        · have h2 : s.m_size ≤ j ∧ j < count := by omega
          rw [if_neg h1, if_pos h3, if_pos h2]
        · have h2 : ¬ (s.m_size ≤ j ∧ j < count) := by omega
          rw [if_neg h1, if_neg h3, if_neg h2]
    · rw [htt, hm]
      show (s.trace ++ [Event.construct s.size]) ++ _ = _
      simp [static_vector.size, List.range'_succ]

/-- The loop `while (m_size < count) push_back(value);` with `count` and the
capacity both above the range of the 8-bit count, on a storage block of `Capacity`
slots, never exits. -/
theorem push_loop_diverges [Element α] (count : Nat) (value : α) (hc : 256 ≤ Capacity)
    (ht : Element.is_trivial α = true) (h8 : 256 ≤ count) (fuel : Nat) :
    ∀ s : static_vector α Capacity,
      while_loop (fun t => decide (t.m_size < count)) (fun t => t.push_back value) fuel s
        = .timeout := by
  induction fuel with
  | zero =>
    intro s
    have := s.m_size_lt
    have h : s.m_size < count := by omega
    simp [while_loop, h]
  | succ fuel ih =>
    intro s
    have := s.m_size_lt
    have h : s.m_size < count := by omega
    have h2 : s.m_size < Capacity := by omega
    rw [while_loop_step _ _ _ _ (by simp [h]), push_back_ok s value h2 (Or.inr ht)]
    simp only [Outcome.bind]
    exact ih _

/-! ## `resize(count, value)` -/

/-- C3, as amended: for every capacity `N <= 255`, every element type for which
`resize(count, value)` can be instantiated, every container state with live
sequence `xs`, every `k` with `|xs| <= k <= N` and every `v`, the call
`resize(k, v)` returns with `size() == k` and live sequence the first
`min(|xs|, k)` elements of `xs`, that is `xs`, followed by `k - |xs|` copies of
`v`. The shrinking calls (`k < |xs|`) are left out. -/
theorem resize_value_contract [Element α] (addr : α → Nat) (hp : pointee_of α = some addr)
    (s : static_vector α Capacity) (xs : List α) (k : Nat) (v : α) (fuel : Nat)
    (h : Live s xs) (hN : Capacity ≤ 255) (hk : k ≤ s.capacity) (hg : xs.length ≤ k)
    (hf : k ≤ fuel) :
    ∃ t, resize_value fuel k v s = .ok t ∧ t.size = k ∧
      Live t (xs.take (min xs.length k) ++ List.replicate (k - xs.length) v) := by
  have hk : k ≤ Capacity := hk
  obtain ⟨hl, hd⟩ := (live_iff s xs).1 h
  obtain ⟨t, ht, htm, htd, -⟩ :=
    push_loop_spec k v hk hN (k - xs.length) fuel s (by omega) (by omega)
  refine ⟨t, ?_, htm, ?_⟩
  · unfold resize_value
    rw [hp]
    simp only [static_vector.capacity, hk, if_true]
    rw [while_loop_done _ _ _ s (by simp; omega)]
    exact ht
  · refine (live_iff _ _).2 ⟨by simp [htm]; omega, fun i hi => ?_⟩
    simp only [List.length_append, List.length_take, List.length_replicate] at hi
    have hik : i < k := by omega
    rw [htd i, Nat.min_eq_left hg, List.take_length]
    by_cases hix : i < xs.length
    · have hno : ¬ (s.m_size ≤ i ∧ i < k) := by omega
      rw [if_neg hno, hd i hix, List.getElem?_append_left hix]
    · have hyes : s.m_size ≤ i ∧ i < k := by omega
      rw [if_pos hyes, List.getElem?_append_right (by omega), List.getElem?_replicate]
      rw [if_pos (by omega)]

/-- Witness of C3 as amended: capacity 4, pointer elements `[11, 12]`,
`resize(4, 19)` gives `[11, 12, 19, 19]`. -/
theorem resize_value_contract_witness :
    ∃ t, resize_value 4 4 { addr := 19 } (pointer_world 1) = .ok t ∧ t.size = 4 ∧
      Live t (([{ addr := 11 }, { addr := 12 }] : List Ptr).take
          (min ([{ addr := 11 }, { addr := 12 }] : List Ptr).length 4) ++
        List.replicate (4 - ([{ addr := 11 }, { addr := 12 }] : List Ptr).length)
          { addr := 19 }) :=
  resize_value_contract Ptr.addr rfl (pointer_world 1) [{ addr := 11 }, { addr := 12 }] 4
    { addr := 19 } 4 (by decide) (by decide) (by decide) (by decide) (by decide)

/-- C3 fails as stated: with capacity 256 and pointer elements the call
`resize(256, v)` on the empty container satisfies `count <= capacity()`, yet it
returns for no number of iterations (the 8-bit count is always below 256). -/
theorem resize_value_never_returns_at_256 :
    (256 ≤ (ctor_default : static_vector Ptr 256).capacity ∧
      Live (ctor_default : static_vector Ptr 256) []) ∧
    ¬ ∃ fuel t, resize_value fuel 256 { addr := 19 } (ctor_default : static_vector Ptr 256)
      = .ok t := by
  refine ⟨⟨le_refl _, live_ctor_default⟩, ?_⟩
  rintro ⟨fuel, t, h⟩
  unfold resize_value at h
  have hp : pointee_of Ptr = some Ptr.addr := rfl
  rw [hp] at h
  simp only [static_vector.capacity, le_refl, if_true] at h
  rw [while_loop_done _ _ _ _ (by simp [ctor_default])] at h
  simp only [Outcome.bind] at h
  rw [push_loop_diverges 256 _ (le_refl _) rfl (le_refl _)] at h
  cases h

/-! ## Pushing up to the capacity -/

theorem valid_ops_map_push (bound : Nat) (vs : List α) :
    ∀ count, count + vs.length ≤ bound → valid_ops bound count (vs.map Op.push_back) = true := by
  induction vs with
  | nil => intro count _; rfl
  | cons v vs ih =>
    intro count h
    simp only [List.length_cons] at h
    simp only [List.map_cons, valid_ops, Bool.and_eq_true, decide_eq_true_eq]
    exact ⟨by omega, ih (count + 1) (by omega)⟩

theorem ref_run_map_push (vs : List α) : ∀ xs, ref_run (vs.map Op.push_back) xs = xs ++ vs := by
  induction vs with
  | nil => intro xs; simp [ref_run]
  | cons v vs ih => intro xs; simp [ref_run, ih]

/-- C5, as amended: for every capacity `N <= 255`, starting from the empty
container, the first `N` calls of `push_back` all pass the capacity assertion and
store their elements, and the next `push_back` fails the assertion
`size() < capacity()`. -/
theorem push_back_fills_then_asserts [Element α] (hN : Capacity ≤ 255) (vs : List α)
    (hlen : vs.length = Capacity) (v : α) :
    ∃ s : static_vector α Capacity, run (vs.map Op.push_back) ctor_default = .ok s ∧
      Live s vs ∧ s.size = Capacity ∧ s.push_back v = .halt .assertion := by
  have hv : valid_ops (min Capacity 255) ([] : List α).length (vs.map Op.push_back) = true :=
    valid_ops_map_push _ vs 0 (by simp [hlen, hN])
  obtain ⟨t, ht, hl⟩ := run_push_live (Or.inl hN) _ (ctor_default : static_vector α Capacity) []
    live_ctor_default (pops_map_push vs) hv
  rw [ref_run_map_push, List.nil_append] at hl
  have hsz : t.m_size = Capacity := by rw [hl.size_eq, hlen]
  refine ⟨t, ht, hl, hsz, ?_⟩
  rw [push_back_eq, if_neg (by omega)]

/-- Witness of C5 as amended: capacity 3, elements 1, 2, 3, then a fourth push. -/
theorem push_back_fills_then_asserts_witness :
    ∃ s : static_vector Nat 3, run ([1, 2, 3].map Op.push_back) ctor_default = .ok s ∧
      Live s [1, 2, 3] ∧ s.size = 3 ∧ s.push_back 4 = .halt .assertion :=
  push_back_fills_then_asserts (by decide) [1, 2, 3] (by decide) 4

/-- C5 fails as stated: with capacity 256, after 256 calls of `push_back` from the
empty container the 257th call passes the assertion and is accepted (the 8-bit
count has wrapped to 0), constructing over slot 0. -/
theorem push_back_accepted_beyond_256 :
    ∃ s t : static_vector Nat 256,
      run (List.replicate 256 (Op.push_back (7 : Nat))) ctor_default = .ok s ∧
      s.push_back 8 = .ok t ∧ t.size = 1 ∧ t.m_data 0 = some 8 := by
  obtain ⟨s, hs, hm⟩ := run_replicate_push (7 : Nat) (le_refl 256) rfl 256
    (ctor_default : static_vector Nat 256)
  have hm0 : s.m_size = 0 := by rw [hm]; rfl
  refine ⟨s, pushed s 8, hs, ?_, ?_, ?_⟩
  · exact push_back_ok s 8 (by omega) (Or.inr rfl)
  · show (s.m_size + 1) % 256 = 1
    rw [hm0]
  · show (if 0 = s.size then some 8 else s.m_data 0) = some 8
    simp [static_vector.size, hm0]

/-! ## Termination of `clear` and `resize` -/

theorem pop_back_ok [Element α] (s t : static_vector α Capacity) (h : s.pop_back = .ok t) :
    0 < s.m_size ∧ t.m_size = s.m_size - 1 ∧ t.m_data = s.m_data := by
  have hlt := s.m_size_lt
  unfold pop_back at h
  split at h
  · cases h
  · split at h
    · split at h
      · cases h
      · split at h
        · cases h
        · rename_i hne _ _ _ _
          have hpos : 0 < s.m_size := by
            have : s.m_size ≠ 0 := by simpa [static_vector.empty, static_vector.size] using hne
            omega
          cases h
          refine ⟨hpos, ?_, rfl⟩
          show (s.m_size + 255) % 256 = s.m_size - 1
          omega
    · cases h

theorem pop_back_ne_timeout [Element α] (s : static_vector α Capacity) :
    s.pop_back ≠ .timeout := by
  unfold pop_back
  intro h
  split at h
  · cases h
  · split at h
    · split at h
      · cases h
      · split at h <;> cases h
    · cases h

theorem push_back_result [Element α] (s t : static_vector α Capacity) (v : α)
    (h : s.push_back v = .ok t) : t = pushed s v := by
  rw [push_back_eq] at h
  split at h
  · split at h
    · cases h; rfl
    · cases h
  · cases h

theorem push_back_ne_timeout [Element α] (s : static_vector α Capacity) (v : α) :
    s.push_back v ≠ .timeout := by
  rw [push_back_eq]
  intro h
  split at h
  · split at h <;> cases h
  · cases h

theorem pop_loop_terminates [Element α] (count fuel : Nat) (s : static_vector α Capacity)
    (hf : s.m_size ≤ fuel) :
    while_loop (fun t => decide (t.m_size > count)) pop_back fuel s ≠ .timeout :=
  while_loop_terminates _ _ (fun t : static_vector α Capacity => t.m_size)
    (fun t hc => by
      have : t.m_size > count := by simpa using hc
      show 0 < t.m_size
      omega)
    (fun t u _ hb => by
      obtain ⟨h1, h2, -⟩ := pop_back_ok t u hb
      show u.m_size < t.m_size
      omega)
    pop_back_ne_timeout fuel s hf

theorem push_loop_terminates [Element α] (count fuel : Nat) (v : α) (h8 : count ≤ 255)
    (s : static_vector α Capacity) (hf : count ≤ fuel) :
    while_loop (fun t => decide (t.m_size < count)) (fun t => t.push_back v) fuel s
      ≠ .timeout :=
  while_loop_terminates _ _ (fun t : static_vector α Capacity => count - t.m_size)
    (fun t hc => by
      have : t.m_size < count := by simpa using hc
      show 0 < count - t.m_size
      omega)
    (fun t u hc hb => by
      have hlt : t.m_size < count := by simpa using hc
      have hu := push_back_result t u v hb
      have hm : u.m_size = t.m_size + 1 := by rw [hu]; exact pushed_m_size t (by omega)
      show count - u.m_size < count - t.m_size
      omega)
    (fun t => push_back_ne_timeout t v) fuel s (by show count - s.m_size ≤ fuel; omega)

theorem resize_loops_terminate [Element α] (count fuel : Nat) (v : α) (h8 : count ≤ 255)
    (s : static_vector α Capacity) (hf : max s.size count ≤ fuel) :
    (while_loop (fun t => decide (t.m_size > count)) pop_back fuel s).bind
      (while_loop (fun t => decide (t.m_size < count)) (fun t => t.push_back v) fuel)
      ≠ .timeout := by
  have hf1 : s.m_size ≤ fuel := le_trans (le_max_left _ _) hf
  have hf2 : count ≤ fuel := le_trans (le_max_right _ _) hf
  cases h1 : while_loop (fun t => decide (t.m_size > count)) pop_back fuel s with
  | ok u => exact push_loop_terminates count fuel v h8 u hf2
  | halt e => exact fun h => by cases h
  | timeout => exact absurd h1 (pop_loop_terminates count fuel s hf1)

/-- C11, as amended: for every capacity `N <= 255`, every element type for which
`clear()` and `resize` can be instantiated, and every container state, `clear()`
terminates, and for every `k <= N` both `resize(k)` and `resize(k, v)` terminate:
none of their loops is still running after `max(size(), k)` iterations. -/
theorem clear_and_resize_terminate [Inhabited α] [Element α] (addr : α → Nat)
    (hp : pointee_of α = some addr) (s : static_vector α Capacity) (k : Nat) (v : α)
    (fuel : Nat) (hN : Capacity ≤ 255) (hk : k ≤ s.capacity) (hf : max s.size k ≤ fuel) :
    s.clear fuel ≠ .timeout ∧ resize fuel k s ≠ .timeout ∧
    resize_value fuel k v s ≠ .timeout := by
  have hk2 : k ≤ Capacity := hk
  have h8 : k ≤ 255 := by omega
  have hf1 : s.m_size ≤ fuel := le_trans (le_max_left _ _) hf
  refine ⟨?_, ?_, ?_⟩
  · unfold clear
    rw [hp]
    exact while_loop_terminates _ _ (fun t : static_vector α Capacity => t.m_size)
      (fun t hc => by
        have : t.m_size ≠ 0 := by simpa [static_vector.empty, static_vector.size] using hc
        show 0 < t.m_size
        omega)
      (fun t u _ hb => by
        obtain ⟨h1, h2, -⟩ := pop_back_ok t u hb
        show u.m_size < t.m_size
        omega)
      pop_back_ne_timeout fuel s hf1
  · unfold resize
    rw [hp]
    simp only [static_vector.capacity, hk2, if_true]
    exact resize_loops_terminate k fuel default h8 s hf
  · unfold resize_value
    rw [hp]
    simp only [static_vector.capacity, hk2, if_true]
    exact resize_loops_terminate k fuel v h8 s hf

/-- Witness of C11 as amended: the object at address 3 of the pointer world
(3 elements, capacity 4), `k = 4`, 4 iterations. -/
theorem clear_and_resize_terminate_witness :
    (pointer_world 3).clear 4 ≠ .timeout ∧ resize 4 4 (pointer_world 3) ≠ .timeout ∧
    resize_value 4 4 { addr := 19 } (pointer_world 3) ≠ .timeout :=
  clear_and_resize_terminate Ptr.addr rfl (pointer_world 3) 4 { addr := 19 } 4 (by decide)
    (by decide) (by decide)

/-- C11 fails as stated: with capacity 256 and pointer elements the call
`resize(256)` on the empty container satisfies `count <= capacity()`, yet for
every number of iterations its push loop is still running. -/
theorem resize_never_returns_at_256 :
    256 ≤ (ctor_default : static_vector Ptr 256).capacity ∧
    (∀ fuel, resize fuel 256 (ctor_default : static_vector Ptr 256) = .timeout) ∧
    ¬ ∃ fuel t, resize fuel 256 (ctor_default : static_vector Ptr 256) = .ok t := by
  have key : ∀ fuel, resize fuel 256 (ctor_default : static_vector Ptr 256) = .timeout := by
    intro fuel
    unfold resize
    have hp : pointee_of Ptr = some Ptr.addr := rfl
    rw [hp]
    simp only [static_vector.capacity, le_refl, if_true]
    rw [while_loop_done _ _ _ _ (by simp [ctor_default])]
    simp only [Outcome.bind]
    exact push_loop_diverges 256 default (le_refl _) rfl (le_refl _) fuel _
  refine ⟨le_refl _, key, ?_⟩
  rintro ⟨fuel, t, h⟩
  rw [key fuel] at h
  cases h

/-! ## What `pop_back` and the members that call it do -/

/-- C6, the code at a failing input. On a container of three pointers `[21, 22, 23]`
`clear()` returns with `size() == 0` after calling `std::destroy_at` on the three
objects pointed to, last first; it destroys no element, and the three elements
still sit in their slots. On a container of `int`, `clear()` and the destructor
cannot be instantiated. -/
theorem clear_destroys_pointees :
    ((pointer_world 3).clear 3).map (fun t => (t.size, t.trace, (List.range 3).map t.m_data))
      = .ok (0,
          [Event.construct 0, Event.construct 1, Event.construct 2,
            Event.destroy_pointee 23, Event.destroy_pointee 22, Event.destroy_pointee 21],
          [some { addr := 21 }, some { addr := 22 }, some { addr := 23 }]) ∧
    ((sample_world 2).clear 3).map size = .halt .ill_formed ∧
    ((sample_world 2).dtor 3).map size = .halt .ill_formed := by
  decide

/-- C4, the code at failing inputs. On a container of `int` holding `[1, 2]`,
within their preconditions, `pop_back`, `clear`, both `resize` overloads and copy
assignment cannot be instantiated; on a container holding the null pointer
`pop_back` is undefined. `push_back` within its precondition returns with
`size() <= capacity()`. -/
theorem mutators_at_failing_inputs :
    (sample_world 1).pop_back.map size = .halt .ill_formed ∧
    ((sample_world 1).clear 2).map size = .halt .ill_formed ∧
    (resize 2 1 (sample_world 1)).map size = .halt .ill_formed ∧
    (resize_value 2 1 9 (sample_world 1)).map size = .halt .ill_formed ∧
    (copy_assign 2 1 3 sample_world).map (fun w => (w 2).size) = .halt .ill_formed ∧
    (pointer_world 2).pop_back.map size = .halt .null_pointee ∧
    ((sample_world 1).push_back 9).map (fun t => decide (t.size ≤ t.capacity)) = .ok true := by
  decide

/-- C7, the code at failing inputs. Copy assignment between two containers of `int`,
and of a container of `int` to itself, cannot be instantiated. With pointer
elements, assigning to a destination that holds the null pointer is undefined
(`clear()` passes the null pointer to `std::destroy_at`); assigning to a
destination that holds `[21, 22, 23]` returns with the source's sequence
`[11, 12]` after destroying the three objects the old elements pointed to. -/
theorem copy_assign_at_failing_inputs :
    (copy_assign 2 1 3 sample_world).map (fun w => (w 2).live_seq) = .halt .ill_formed ∧
    (copy_assign 1 1 3 sample_world).map (fun w => (w 1).live_seq) = .halt .ill_formed ∧
    (copy_assign 2 1 3 pointer_world).map (fun w => (w 2).live_seq) = .halt .null_pointee ∧
    (copy_assign 3 1 3 pointer_world).map (fun w => ((w 3).live_seq, (w 3).trace.drop 3))
      = .ok ([some { addr := 11 }, some { addr := 12 }],
          [Event.destroy_pointee 23, Event.destroy_pointee 22, Event.destroy_pointee 21,
            Event.construct 0, Event.construct 1]) := by
  decide

/-- C8, the code at failing inputs. A copy of the container of `int` holding `[1, 2]`
is constructed with the same sequence, but `pop_back`, `clear` and `resize` cannot be
instantiated on it. With pointer elements `[11, 12]`, `pop_back` on the copy
destroys the object at address 12, to which the last element of the original
still points. -/
theorem copy_then_mutate_at_failing_inputs :
    (ctor_copy 0 1 2 sample_world).map (fun w => ((w 0).live_seq, (w 1).live_seq))
      = .ok ([some 1, some 2], [some 1, some 2]) ∧
    ((ctor_copy 0 1 2 sample_world).bind fun w => (w 0).pop_back).map size
      = .halt .ill_formed ∧
    ((ctor_copy 0 1 2 sample_world).bind fun w => (w 0).clear 2).map size
      = .halt .ill_formed ∧
    ((ctor_copy 0 1 2 sample_world).bind fun w => resize_value 2 1 9 (w 0)).map size
      = .halt .ill_formed ∧
    ((ctor_copy 0 1 2 pointer_world).bind fun w =>
        (w 0).pop_back.map fun t => (t.trace, (w 1).live_seq))
      = .ok ([Event.construct 0, Event.construct 1, Event.destroy_pointee 12],
          [some { addr := 11 }, some { addr := 12 }]) := by
  decide

/-- C10, the code at failing inputs. On a container of `int` holding `[1, 2]`
neither `resize(1)` nor `resize(size())` can be instantiated, for either overload;
on a container holding the null pointer `resize(0, v)` is undefined. -/
theorem resize_at_failing_inputs :
    (resize 2 1 (sample_world 1)).map size = .halt .ill_formed ∧
    (resize 2 (sample_world 1).size (sample_world 1)).map size = .halt .ill_formed ∧
    (resize_value 2 (sample_world 1).size 9 (sample_world 1)).map size = .halt .ill_formed ∧
    (resize_value 1 0 { addr := 19 } (pointer_world 2)).map size = .halt .null_pointee := by
  decide

/-! ## `front()` and `back()` -/

/-- C13: for a container with non-empty live sequence `xs`, `front()` returns
`xs[0]` and `back()` returns `xs[|xs| - 1]`, which are the results of `at(0)` and
`at(size() - 1)` on the same, unchanged container; on an empty container both
fail the assertion `!empty()`. -/
theorem front_back_contract (s : static_vector α Capacity) :
    (∀ xs, Live s xs → ∀ hpos : 0 < xs.length,
      s.front = .ok xs[0] ∧ s.back = .ok xs[xs.length - 1] ∧
      s.at_ 0 = (s.front, s) ∧ s.at_ (s.size - 1) = (s.back, s)) ∧
    (s.empty = true → s.front = .halt .assertion ∧ s.back = .halt .assertion) := by
  constructor
  · intro xs h hpos
    obtain ⟨hl, hd⟩ := (live_iff s xs).1 h
    have hne : s.empty = false := by
      have : s.m_size ≠ 0 := by omega
      simp [static_vector.empty, static_vector.size, this]
    have h0 : s.read 0 = .ok xs[0] := by
      simp [static_vector.read, hd 0 hpos, List.getElem?_eq_getElem hpos]
    have hlast : s.read (s.size - 1) = .ok xs[xs.length - 1] := by
      have hb : xs.length - 1 < xs.length := by omega
      simp [static_vector.read, static_vector.size, hl, hd _ hb, List.getElem?_eq_getElem hb]
    have hf : s.front = .ok xs[0] := by simp [static_vector.front, hne, h0]
    have hbk : s.back = .ok xs[xs.length - 1] := by simp [static_vector.back, hne, hlast]
    refine ⟨hf, hbk, ?_, ?_⟩
    · rw [hf, h.at_eq 0 hpos]
    · have hsz : s.size - 1 = xs.length - 1 := by rw [static_vector.size, hl]
      rw [hbk, hsz, h.at_eq (xs.length - 1) (by omega)]
  · intro he
    simp [static_vector.front, static_vector.back, he]

/-- Witness of C13: after pushing 1, 2, 3 into a capacity-4 container, `front()`
is 1 and `back()` is 3. -/
theorem front_back_contract_witness :
    run [Op.push_back 1, Op.push_back 2, Op.push_back 3] (ctor_default : static_vector Nat 4)
      = .ok (pushed (pushed (pushed ctor_default 1) 2) 3) ∧
    (pushed (pushed (pushed (ctor_default : static_vector Nat 4) 1) 2) 3).front = .ok 1 ∧
    (pushed (pushed (pushed (ctor_default : static_vector Nat 4) 1) 2) 3).back = .ok 3 :=
  ⟨rfl,
    ((front_back_contract (pushed (pushed (pushed (ctor_default : static_vector Nat 4) 1) 2) 3)).1
      [1, 2, 3] (by decide) (by decide)).1,
    ((front_back_contract (pushed (pushed (pushed (ctor_default : static_vector Nat 4) 1) 2) 3)).1
      [1, 2, 3] (by decide) (by decide)).2.1⟩

/-! ## The maximum size -/

/-- C19: `max_size()` returns 255 for every capacity and every state; `size()` is
at most `max_size()`; `max_size() == capacity()` holds exactly when the capacity is
255, and `capacity() <= max_size()` fails for every capacity above 255. -/
theorem max_size_is_255 (s : static_vector α Capacity) :
    s.max_size = 255 ∧ s.size ≤ s.max_size ∧ (s.max_size = s.capacity ↔ Capacity = 255) ∧
    (255 < Capacity → ¬ s.capacity ≤ s.max_size) := by
  have := s.m_size_lt
  refine ⟨rfl, ?_, ?_, ?_⟩
  · show s.m_size ≤ 255
    omega
  · show (255 = Capacity) ↔ Capacity = 255
    exact eq_comm
  · intro h hle
    have h2 : Capacity ≤ 255 := hle
    omega

/-- Witness of C19: capacity 256, 255 elements. -/
theorem max_size_is_255_witness :
    full_255.max_size = 255 ∧ full_255.size ≤ full_255.max_size ∧
    ¬ full_255.capacity ≤ full_255.max_size :=
  ⟨(max_size_is_255 full_255).1, (max_size_is_255 full_255).2.1,
    (max_size_is_255 full_255).2.2.2 (by decide)⟩

/-! ## `push_back` on a container below its capacity -/

theorem live_full_255 : Live full_255 (List.replicate 255 7) := by
  refine (live_iff _ _).2 ⟨?_, fun i hi => ?_⟩
  · show 255 = (List.replicate 255 7).length
    rw [List.length_replicate]
  simp only [List.length_replicate] at hi
  show (if i < 255 then some 7 else none) = _
  rw [if_pos hi, List.getElem?_replicate, if_pos hi]

/-- C17, as amended: for every capacity `N <= 255`, every container state with
live sequence `xs` and `size() < N`, and every `v`: `push_back(v)` returns with
`back() == v`, `size()` one larger and the earlier elements unchanged. The
following `pop_back()` is left out. -/
theorem push_back_appends [Element α] (s : static_vector α Capacity) (xs : List α) (v : α)
    (h : Live s xs) (hN : Capacity ≤ 255) (hc : s.size < s.capacity) :
    ∃ t, s.push_back v = .ok t ∧ t.back = .ok v ∧ t.size = s.size + 1 ∧
      Live t (xs ++ [v]) ∧ ∀ i (hi : i < xs.length), t.at_ i = (.ok xs[i], t) := by
  have hc2 : s.m_size < Capacity := hc
  have h82 : s.m_size < 255 := by omega
  have hl := h.size_eq
  have hm : (pushed s v).m_size = s.m_size + 1 := pushed_m_size s h82
  have hlt : Live (pushed s v) (xs ++ [v]) := h.pushed (by omega) v
  refine ⟨pushed s v, push_back_ok s v hc2 (Or.inl hN), ?_, hm, hlt, fun i hi => ?_⟩
  · have hne : (pushed s v).empty = false := by
      have : (pushed s v).m_size ≠ 0 := by omega
      simp [static_vector.empty, static_vector.size, this]
    have hslot : (pushed s v).m_data ((pushed s v).size - 1) = some v := by
      have hidx : (pushed s v).size - 1 = s.size := by
        simp only [static_vector.size]; omega
      rw [hidx]
      show (if s.size = s.size then some v else s.m_data s.size) = some v
      rw [if_pos rfl]
    simp [static_vector.back, hne, static_vector.read, hslot]
  · have hi2 : i < (xs ++ [v]).length := by simp; omega
    rw [hlt.at_eq i hi2, List.getElem_append_left hi]

/-- Witness of C17 as amended: the object at address 1 of the sample world
(`[1, 2]`, capacity 4) and the value 9. -/
theorem push_back_appends_witness :
    ∃ t, (sample_world 1).push_back 9 = .ok t ∧ t.back = .ok 9 ∧
      t.size = (sample_world 1).size + 1 ∧ Live t ([1, 2] ++ [9]) ∧
      ∀ i (hi : i < [1, 2].length), t.at_ i = (.ok [1, 2][i], t) :=
  push_back_appends (sample_world 1) [1, 2] 9 (by decide) (by decide) (by decide)

/-- C17 fails as stated: with capacity 256, on a container holding 255 live
elements (`size() < capacity()`), `push_back(8)` returns with `size() == 0`, not
256, and `back()` fails the assertion `!empty()`. -/
theorem push_back_wraps_at_255 :
    (Live full_255 (List.replicate 255 7) ∧ full_255.size < full_255.capacity) ∧
    ∃ t, full_255.push_back 8 = .ok t ∧ t.size = 0 ∧ t.back = .halt .assertion := by
  refine ⟨⟨live_full_255, by decide⟩, pushed full_255 8, ?_, rfl, ?_⟩
  · exact push_back_ok full_255 8 (by decide) (Or.inr rfl)
  · have he : (pushed full_255 8).empty = true := rfl
    simp [static_vector.back, he]

/-! ## Iteration -/

theorem take_succ_getElem (xs : List α) (i : Nat) (h : i < xs.length) :
    xs.take (i + 1) = xs.take i ++ [xs[i]] := by
  rw [List.take_succ, List.getElem?_eq_getElem h]
  rfl

theorem read_of_live {s : static_vector α Capacity} {xs : List α} (h : Live s xs) (i : Nat)
    (hi : i < xs.length) : s.read i = .ok xs[i] := by
  obtain ⟨-, hd⟩ := (live_iff s xs).1 h
  simp [static_vector.read, hd i hi, List.getElem?_eq_getElem hi]

/-- The forward walk entered at offset `i` with `acc` already visited. -/
theorem walk_loop_spec (s : static_vector α Capacity) (xs : List α) (h : Live s xs) (d : Nat) :
    ∀ (fuel i : Nat) (acc : List α), i + d = xs.length → d ≤ fuel →
      while_loop (fun st : Nat × List α => decide (st.1 ≠ xs.length))
        (fun st => (s.read st.1).bind fun v => .ok (st.1 + 1, st.2 ++ [v])) fuel (i, acc)
        = .ok (xs.length, acc ++ xs.drop i) := by
  induction d with
  | zero =>
    intro fuel i acc hi _
    have hi2 : i = xs.length := by omega
    subst hi2
    rw [while_loop_done _ _ _ _ (by simp)]
    simp
  | succ d ih =>
    intro fuel i acc hi hf
    obtain ⟨fuel, rfl⟩ : ∃ f, fuel = f + 1 := ⟨fuel - 1, by omega⟩
    have hix : i < xs.length := by omega
    have hne : i ≠ xs.length := by omega
    rw [while_loop_step _ _ _ _ (by simp [hne])]
    show ((s.read i).bind fun v => Outcome.ok (i + 1, acc ++ [v])).bind (while_loop _ _ fuel) = _
    rw [read_of_live h i hix]
    show while_loop _ _ fuel (i + 1, acc ++ [xs[i]]) = _
    rw [ih fuel (i + 1) (acc ++ [xs[i]]) (by omega) (by omega)]
    rw [List.drop_eq_getElem_cons hix]
    simp

/-- The reverse walk entered at `current = i` with `acc` already visited. -/
theorem rwalk_loop_spec (s : static_vector α Capacity) (xs : List α) (h : Live s xs) (i : Nat) :
    ∀ (fuel : Nat) (acc : List α), i ≤ xs.length → i ≤ fuel →
      while_loop (fun st : reverse_iterator × List α => decide (st.1 ≠ make_reverse_iterator 0))
        (fun st => (s.read (st.1.current - 1)).bind fun v =>
          .ok (make_reverse_iterator (st.1.current - 1), st.2 ++ [v]))
        fuel (make_reverse_iterator i, acc)
        = .ok (make_reverse_iterator 0, acc ++ (xs.take i).reverse) := by
  induction i with
  | zero =>
    intro fuel acc _ _
    rw [while_loop_done _ _ _ _ (by simp)]
    simp
  | succ i ih =>
    intro fuel acc hi hf
    obtain ⟨fuel, rfl⟩ : ∃ f, fuel = f + 1 := ⟨fuel - 1, by omega⟩
    have hix : i < xs.length := by omega
    rw [while_loop_step _ _ _ _ (by simp [make_reverse_iterator])]
    show ((s.read i).bind fun v => Outcome.ok (make_reverse_iterator i, acc ++ [v])).bind
      (while_loop _ _ fuel) = _
    rw [read_of_live h i hix]
    show while_loop _ _ fuel (make_reverse_iterator i, acc ++ [xs[i]]) = _
    rw [ih fuel (acc ++ [xs[i]]) (by omega) (by omega), take_succ_getElem xs i hix,
      List.reverse_append, List.reverse_singleton, List.append_assoc]

/-- C12: for a container with live sequence `xs`, the walk from `begin()` to
`end()` returns after visiting exactly `size()` elements, the `i`-th being `xs[i]`;
the walk from `rbegin()` to `rend()` visits the same elements in reverse index
order; `cbegin`/`cend` and `crbegin`/`crend` give the same two sequences; and for
an empty container `begin() == end()`. -/
theorem iteration_contract (s : static_vector α Capacity) (xs : List α) (fuel : Nat)
    (h : Live s xs) (hf : s.size ≤ fuel) :
    walk s s.begin s.end_ fuel = .ok xs ∧ walk s s.cbegin s.cend fuel = .ok xs ∧
    rwalk s s.rbegin s.rend fuel = .ok xs.reverse ∧
    rwalk s s.crbegin s.crend fuel = .ok xs.reverse ∧
    xs.length = s.size ∧ (s.empty = true → s.begin = s.end_) := by
  have hl : s.size = xs.length := h.size_eq
  have hend : s.end_ = xs.length := by simp [static_vector.end_, hl]
  have hcend : s.cend = xs.length := by simp [static_vector.cend, hl]
  have hfw : walk s 0 xs.length fuel = .ok xs := by
    unfold walk
    rw [walk_loop_spec s xs h xs.length fuel 0 [] (by omega) (by omega)]
    simp [Outcome.map]
  have hbw : rwalk s (make_reverse_iterator xs.length) (make_reverse_iterator 0) fuel
      = .ok xs.reverse := by
    unfold rwalk
    rw [rwalk_loop_spec s xs h xs.length fuel [] (le_refl _) (by omega)]
    simp [Outcome.map]
  refine ⟨?_, ?_, ?_, ?_, hl.symm, fun he => ?_⟩
  · rw [hend]; exact hfw
  · rw [hcend]; exact hfw
  · simp only [static_vector.rbegin, static_vector.rend, hend, static_vector.begin]; exact hbw
  · simp only [static_vector.crbegin, static_vector.crend, hcend, static_vector.cbegin]; exact hbw
  · have : s.size = 0 := by simpa [static_vector.empty] using he
    simp [static_vector.begin, static_vector.end_, this]

/-- Witness of C12: the object at address 2 of the sample world, `[5, 6, 7]`. -/
theorem iteration_contract_witness :
    walk (sample_world 2) (sample_world 2).begin (sample_world 2).end_ 3 = .ok [5, 6, 7] ∧
    walk (sample_world 2) (sample_world 2).cbegin (sample_world 2).cend 3 = .ok [5, 6, 7] ∧
    rwalk (sample_world 2) (sample_world 2).rbegin (sample_world 2).rend 3
      = .ok [5, 6, 7].reverse ∧
    rwalk (sample_world 2) (sample_world 2).crbegin (sample_world 2).crend 3
      = .ok [5, 6, 7].reverse ∧
    [5, 6, 7].length = (sample_world 2).size ∧
    ((sample_world 2).empty = true → (sample_world 2).begin = (sample_world 2).end_) :=
  iteration_contract (sample_world 2) [5, 6, 7] 3 (by decide) (by decide)

/-! ## unique_ptr -/

/-- C14: for every handle, every raw pointer `p` and every record of earlier
deleter calls, `reset(p)` calls the deleter exactly once, on the pointer held
before, when that pointer is not null, and not at all when it is null; afterwards
`get() == p`, and `operator bool` is true exactly when `p` is not null. -/
theorem reset_contract {δ : Type} (u : unique_ptr δ) (p : Nat) (calls : List (δ × Nat)) :
    (u.reset p calls).2 = calls ++ (if u.get ≠ 0 then [(u.get_deleter, u.get)] else []) ∧
    (u.reset p calls).1.get = p ∧
    ((u.reset p calls).1.to_bool = true ↔ p ≠ 0) ∧
    (u.reset p calls).1.get_deleter = u.get_deleter := by
  by_cases h : u.m_ptr = 0
  · simp [unique_ptr.reset, unique_ptr.get, unique_ptr.to_bool, unique_ptr.get_deleter, h]
  · simp [unique_ptr.reset, unique_ptr.get, unique_ptr.to_bool, unique_ptr.get_deleter, h]

/-- Witness of C14: `reset(30)` on the handle at address 1 of the sample handles,
which holds the pointer 10. -/
theorem reset_contract_witness :
    ((sample_handles.obj 1).reset 30 []).2 = [(1, 10)] ∧
    ((sample_handles.obj 1).reset 30 []).1.get = 30 ∧
    ((sample_handles.obj 0).reset 0 []).2 = [] :=
  ⟨(reset_contract (sample_handles.obj 1) 30 []).1, (reset_contract (sample_handles.obj 1) 30 []).2.1,
    (reset_contract (sample_handles.obj 0) 0 []).1⟩

/-- C15: for every handle, `release()` returns the pointer that `get()` returned
before the call and leaves the handle null (`get() == nullptr`, `operator bool`
false), the deleter of the handle being kept; it makes no deleter call, and a
following destructor or `reset(q)` makes none either. -/
theorem release_contract {δ : Type} (u : unique_ptr δ) (q : Nat) (calls : List (δ × Nat)) :
    u.release.1 = u.get ∧ u.release.2.get = 0 ∧ u.release.2.to_bool = false ∧
    u.release.2.get_deleter = u.get_deleter ∧
    (u.release.2.dtor calls).2 = calls ∧ (u.release.2.reset q calls).2 = calls := by
  simp [unique_ptr.release, unique_ptr.get, unique_ptr.to_bool, unique_ptr.get_deleter,
    unique_ptr.dtor, unique_ptr.reset]

/-- Witness of C15: `release()` on the handle at address 1 of the sample handles. -/
theorem release_contract_witness :
    (sample_handles.obj 1).release.1 = 10 ∧ (sample_handles.obj 1).release.2.get = 0 ∧
    ((sample_handles.obj 1).release.2.dtor []).2 = [] :=
  ⟨(release_contract (sample_handles.obj 1) 0 []).1, (release_contract (sample_handles.obj 1) 0 []).2.1,
    (release_contract (sample_handles.obj 1) 0 []).2.2.2.2.1⟩

/-- C16, as amended: for handles at distinct addresses `a` and `b`, the move
assignment `a = std::move(b)` calls the deleter exactly once, on the pointer `a`
held before and with the deleter `a` had before, when that pointer is not null,
and makes no call otherwise; afterwards `a` holds the pointer and the deleter of
`b`, `b` is null and every other handle is unchanged; a call of the assignment is
on the transferred pointer exactly when `a` held that same pointer, not null,
before; destroying `a` and `b` afterwards, in either order, calls the deleter on
the transferred pointer exactly once when it is not null and makes no call when it
is null. The move assignment of a handle to itself changes nothing and calls no
deleter. -/
theorem unique_ptr_move_assign_contract {δ : Type} (h : Handles δ) (a b : Nat) (hne : a ≠ b) :
    (∃ h2, unique_ptr.move_assign a b h = h2 ∧
      h2.calls = h.calls ++
        (if (h.obj a).get ≠ 0 then [((h.obj a).get_deleter, (h.obj a).get)] else []) ∧
      (h2.obj a).get = (h.obj b).get ∧ (h2.obj a).get_deleter = (h.obj b).get_deleter ∧
      (h2.obj b).get = 0 ∧ (h2.obj b).to_bool = false ∧
      (∀ q, q ≠ a → q ≠ b → h2.obj q = h.obj q) ∧
      ((∃ d, (d, (h.obj b).get) ∈ h2.calls.drop h.calls.length) ↔
        ((h.obj a).get ≠ 0 ∧ (h.obj a).get = (h.obj b).get)) ∧
      (unique_ptr.destroy b (unique_ptr.destroy a h2)).calls = h2.calls ++
        (if (h.obj b).get ≠ 0 then [((h.obj b).get_deleter, (h.obj b).get)] else []) ∧
      (unique_ptr.destroy a (unique_ptr.destroy b h2)).calls = h2.calls ++
        (if (h.obj b).get ≠ 0 then [((h.obj b).get_deleter, (h.obj b).get)] else [])) ∧
    unique_ptr.move_assign b b h = h := by
  refine ⟨⟨_, rfl, ?_⟩, by simp [unique_ptr.move_assign]⟩
  have hba : b ≠ a := Ne.symm hne
  by_cases ha : (h.obj a).m_ptr = 0 <;> by_cases hb : (h.obj b).m_ptr = 0
  all_goals
    refine ⟨?_, ?_, ?_, ?_, ?_, ?_, ?_, ?_, ?_⟩
  all_goals
    try simp [unique_ptr.move_assign, unique_ptr.destroy, unique_ptr.dtor, unique_ptr.reset,
      unique_ptr.release, unique_ptr.get, unique_ptr.get_deleter, unique_ptr.to_bool,
      Handles.set, hne, hba, ha, hb]
  all_goals try (intro q hqa hqb; simp [hqa, hqb])
  all_goals try omega

/-- Witness of C16 as amended: the handle at address 1 (pointer 10, deleter 1) is
assigned the handle at address 2 (pointer 20, deleter 2) of the sample handles;
both are then destroyed. -/
theorem unique_ptr_move_assign_contract_witness :
    (unique_ptr.move_assign 1 2 sample_handles).calls = [(1, 10)] ∧
    ((unique_ptr.move_assign 1 2 sample_handles).obj 1).get = 20 ∧
    ((unique_ptr.move_assign 1 2 sample_handles).obj 2).get = 0 ∧
    (unique_ptr.destroy 2 (unique_ptr.destroy 1 (unique_ptr.move_assign 1 2 sample_handles))).calls
      = [(1, 10), (2, 20)] ∧
    unique_ptr.move_assign 2 2 sample_handles = sample_handles := by
  obtain ⟨⟨h2, rfl, hc, hg, -, hb, -, -, -, hd, -⟩, hself⟩ :=
    unique_ptr_move_assign_contract sample_handles 1 2 (by decide)
  exact ⟨hc, hg, hb, by rw [hd, hc]; rfl, hself⟩

/-- C16 fails as stated: the handles at the distinct addresses 1 and 2 both hold the
pointer 10; the move assignment of the second to the first calls the deleter on
10, which is the transferred pointer, and the first handle then holds 10. -/
theorem move_assign_deletes_transferred_pointer :
    (1 ≠ 2 ∧ (shared_handles.obj 1).get = 10 ∧ (shared_handles.obj 2).get = 10) ∧
    (unique_ptr.move_assign 1 2 shared_handles).calls = [(1, 10)] ∧
    ((unique_ptr.move_assign 1 2 shared_handles).obj 1).get = 10 := by
  decide

end SV
